import Mathlib

/-!
# Optimistic concurrency control for versioned documents (`versioned.go`)

A shallow embedding of the Go package `versioned`:

* `SetInitialVersion` (lines 17-22) acts on the integer a pointer refers to;
* `UpdateIfCurrent` (lines 24-41) mutates the two `bson.M` maps it is given, performs one
  `FindOneAndUpdate` round trip on the collection and classifies the reply.

Go maps are reference values.  `UpdateIfCurrent.call` is the function on the caller's memory:
its two map arguments are references, which may be nil and may be one and the same map, and a
write through a nil reference panics.  `UpdateIfCurrent` is the function on two allocated maps
that are distinct objects, given by their contents; it hands back the two maps as the caller sees
them after the call, next to the two Go return values and the store state, and
`UpdateIfCurrent.call_eq` shows that this is what the call does on such references.
The MongoDB collection is an external collaborator.  The embedding takes it as an interface
(`Collection`), so that every statement about classification and about the arguments sent to the
store holds for every store behaviour; statements about stored documents are settled on
`ReferenceStore`, an in-memory store written from the specification.

Go's `int` is a bounded machine integer.  Neither function performs arithmetic on it (the
increment is carried out by the store), so versions are embedded as `Int`; every Go `int` is one.
-/

namespace Versioned

/-! ## BSON values and `bson.M` -/

/-- A dynamically typed BSON value, the `interface{}` stored in a `bson.M`. -/
inductive Value where
  | null
  | int (n : Int)
  | str (s : String)
  | doc (fields : List (String × Value))

/-- A `bson.M`, that is `map[string]interface{}`: the first entry for a key is the binding. -/
abbrev BsonM := List (String × Value)

mutual
/-- Decidable equality on BSON values. -/
def Value.decEq : (a b : Value) → Decidable (a = b)
  | .null, .null => isTrue rfl
  | .int a, .int b =>
    if h : a = b then isTrue (by rw [h]) else isFalse (by intro h2; cases h2; exact h rfl)
  | .str a, .str b =>
    if h : a = b then isTrue (by rw [h]) else isFalse (by intro h2; cases h2; exact h rfl)
  | .doc a, .doc b =>
    match Value.decEqFields a b with
    | isTrue h => isTrue (by rw [h])
    | isFalse h => isFalse (by intro h2; cases h2; exact h rfl)
  | .null, .int _ => isFalse (by intro h; cases h)
  | .null, .str _ => isFalse (by intro h; cases h)
  | .null, .doc _ => isFalse (by intro h; cases h)
  | .int _, .null => isFalse (by intro h; cases h)
  | .int _, .str _ => isFalse (by intro h; cases h)
  | .int _, .doc _ => isFalse (by intro h; cases h)
  | .str _, .null => isFalse (by intro h; cases h)
  | .str _, .int _ => isFalse (by intro h; cases h)
  | .str _, .doc _ => isFalse (by intro h; cases h)
  | .doc _, .null => isFalse (by intro h; cases h)
  | .doc _, .int _ => isFalse (by intro h; cases h)
  | .doc _, .str _ => isFalse (by intro h; cases h)
/-- Decidable equality on the entry lists of embedded documents. -/
def Value.decEqFields : (a b : List (String × Value)) → Decidable (a = b)
  | [], [] => isTrue rfl
  | (k, v) :: r, (k2, v2) :: r2 =>
    if hk : k = k2 then
      match Value.decEq v v2 with
      | isTrue hv =>
        match Value.decEqFields r r2 with
        | isTrue hr => isTrue (by rw [hk, hv, hr])
        | isFalse hr => isFalse (by intro h2; cases h2; exact hr rfl)
      | isFalse hv => isFalse (by intro h2; cases h2; exact hv rfl)
    else isFalse (by intro h2; cases h2; exact hk rfl)
  | [], _ :: _ => isFalse (by intro h; cases h)
  | _ :: _, [] => isFalse (by intro h; cases h)
end

instance : DecidableEq Value := Value.decEq

/-- Go's `m[k]` read: the value bound to `k`, or `none` when the key is absent. -/
def BsonM.index : BsonM → String → Option Value
  | [], _ => none
  | (k2, x) :: rest, k => if k2 = k then some x else BsonM.index rest k

/-- Go's `m[k] = v`: afterwards `k` is bound to `v` and no other binding has changed. -/
def BsonM.assign (m : BsonM) (k : String) (v : Value) : BsonM :=
  (k, v) :: m.filter (fun e => e.1 ≠ k)

/-! ## The driver types `UpdateIfCurrent` touches -/

/-- A `context.Context`; it is only ever forwarded. -/
structure Context where
  id : Nat
  deriving DecidableEq

/-- The error values a `mongo.SingleResult` can hold: the driver's sentinel
`mongo.ErrNoDocuments`, or any other failure of the driver or the server. -/
inductive MongoErr where
  | ErrNoDocuments
  | other (msg : String)
  deriving DecidableEq

/-- The error values `UpdateIfCurrent` returns.  `ErrVersionConflict` is the package variable of
line 15, allocated by `errors.New` in this package, hence a value the driver never holds; `driver e`
is an error of the driver handed on as it is. -/
inductive GoError where
  | ErrVersionConflict
  | driver (e : MongoErr)
  deriving DecidableEq

/-- The `options.ReturnDocument` enumeration. -/
inductive ReturnDocument where
  | Before
  | After
  deriving DecidableEq

/-- The `options.FindOneAndUpdateOptions` builder, reduced to the one option the code sets. -/
structure FindOneAndUpdateOptions where
  ReturnDocument : Option ReturnDocument
  deriving DecidableEq

/-- The `options.FindOneAndUpdate()` constructor: no option set. -/
def FindOneAndUpdateOptions.FindOneAndUpdate : FindOneAndUpdateOptions :=
  ⟨none⟩

/-- The `SetReturnDocument` setter of the options builder. -/
def FindOneAndUpdateOptions.SetReturnDocument (o : FindOneAndUpdateOptions)
    (rd : Versioned.ReturnDocument) : FindOneAndUpdateOptions :=
  { o with ReturnDocument := some rd }

/-- A `mongo.SingleResult`: the error of the operation and the raw document it carries. -/
structure SingleResult where
  err : Option MongoErr
  rdr : Option BsonM
  deriving DecidableEq

/-- The `Err()` accessor of a `mongo.SingleResult`. -/
def SingleResult.Err (r : SingleResult) : Option MongoErr :=
  r.err

/-- A `*mongo.Collection` as `UpdateIfCurrent` uses it: one operation, which answers with a
`SingleResult` and may change the state `σ` of the store. -/
structure Collection (σ : Type) where
  FindOneAndUpdate : Context → BsonM → BsonM → FindOneAndUpdateOptions → σ → SingleResult × σ

/-! ## The package `versioned` -/

/-- The function `SetInitialVersion` of lines 17-22, on the integer the pointer refers to: the
argument is the integer before the call, the value the integer after it. -/
def SetInitialVersion (version : Int) : Int :=
  if version = 0 then 1 else version

/-- What a call of `UpdateIfCurrent` leaves behind: the two Go return values, the caller's two
maps (which the function writes to) and the state of the store. -/
structure Outcome (σ : Type) where
  result : Option SingleResult
  err : Option GoError
  filter : BsonM
  update : BsonM
  store : σ

/-- The function `UpdateIfCurrent` of lines 24-41 on two allocated maps that are distinct
objects, given by their contents `filter` and `update`: the outcome holds the contents of the
same two maps after the call.  Nil references and one map passed as both arguments are the
business of `UpdateIfCurrent.call`. -/
def UpdateIfCurrent {σ : Type} (ctx : Context) (collection : Collection σ)
    (filter update : BsonM) (version : Int) (st : σ) : Outcome σ :=
  let filter := filter.assign "version" (.int version)
  let update := update.assign "$inc" (.doc [("version", .int 1)])
  let opts := FindOneAndUpdateOptions.FindOneAndUpdate.SetReturnDocument .After
  let reply := collection.FindOneAndUpdate ctx filter update opts st
  let result := reply.1
  match result.Err with
  | some e =>
    if e = .ErrNoDocuments then
      ⟨none, some .ErrVersionConflict, filter, update, reply.2⟩
    else
      ⟨none, some (.driver e), filter, update, reply.2⟩
  | none => ⟨some result, none, filter, update, reply.2⟩

/-- A reference to a `bson.M` as a Go function receives it: nil, or the address of a map. -/
abbrev MapRef := Option Nat

/-- The caller's memory: the contents of the map at each address. -/
abbrev Heap := Nat → BsonM

/-- A write of Go's `m[k] = v` lands in the map at address `a`: that map gets new contents, every
other map keeps its own. -/
def Heap.write (heap : Heap) (a : Nat) (m : BsonM) : Heap :=
  fun n => if n = a then m else heap n

/-- How a call on the caller's memory ends: with the run-time panic "assignment to entry in nil
map", or with the two Go return values; either way with the memory and the store state it
leaves. -/
inductive Exec (σ : Type) where
  | panicked (heap : Heap) (store : σ)
  | returned (result : Option SingleResult) (err : Option GoError) (heap : Heap) (store : σ)

/-- Whether the call ended in a panic. -/
def Exec.isPanic {σ : Type} : Exec σ → Bool
  | .panicked _ _ => true
  | .returned _ _ _ _ => false

/-- The caller's memory after the call. -/
def Exec.heap {σ : Type} : Exec σ → Heap
  | .panicked heap _ => heap
  | .returned _ _ heap _ => heap

/-- The store state after the call. -/
def Exec.store {σ : Type} : Exec σ → σ
  | .panicked _ st => st
  | .returned _ _ _ st => st

/-- The function `UpdateIfCurrent` of lines 24-41 on the caller's memory.  Line 27 writes through
`filter` and line 28 through `update`; a write through a nil reference panics, after the writes
before it have been made.  The store is handed the same two references and reads the two maps as
they are after both writes. -/
def UpdateIfCurrent.call {σ : Type} (ctx : Context) (collection : Collection σ)
    (filter update : MapRef) (version : Int) (heap : Heap) (st : σ) : Exec σ :=
  match filter with
  | none => .panicked heap st
  | some a =>
    let heap := heap.write a ((heap a).assign "version" (.int version))
    match update with
    | none => .panicked heap st
    | some b =>
      let heap := heap.write b ((heap b).assign "$inc" (.doc [("version", .int 1)]))
      let opts := FindOneAndUpdateOptions.FindOneAndUpdate.SetReturnDocument .After
      let reply := collection.FindOneAndUpdate ctx (heap a) (heap b) opts st
      let result := reply.1
      match result.Err with
      | some e =>
        if e = .ErrNoDocuments then
          .returned none (some .ErrVersionConflict) heap reply.2
        else
          .returned none (some (.driver e)) heap reply.2
      | none => .returned (some result) none heap reply.2

/-! ## Observing the store call -/

/-- One `FindOneAndUpdate` request as the store received it, with the reply it gave. -/
structure CallRecord where
  ctx : Context
  filter : BsonM
  update : BsonM
  opts : FindOneAndUpdateOptions
  reply : SingleResult

/-- A collection that behaves as `c` does and appends every request it receives to a log. -/
def Collection.recording {σ : Type} (c : Collection σ) : Collection (σ × List CallRecord) where
  FindOneAndUpdate ctx filter update opts st :=
    let reply := c.FindOneAndUpdate ctx filter update opts st.1
    (reply.1, (reply.2, st.2 ++ [⟨ctx, filter, update, opts, reply.1⟩]))

/-! ## A reference document store

`*mongo.Collection` is not part of the package.  Sections 4.2 and 6 of the specification describe
what the store does with a request: find one document matching the filter, apply the patch, and
return the document as it is after the mutation, in one indivisible step; report a sentinel when
no document matched; report any other failure as such and leave the documents alone. -/

/-- Modelled from the spec: the filter of the external store, "a set of equality constraints".
A document matches when, for every key of the filter, it binds that key to the filter's value. -/
def ReferenceStore.matchesFilter (filter d : BsonM) : Bool :=
  filter.all (fun e => decide (d.index e.1 = filter.index e.1))

/-- Modelled from the spec: the external store's choice of "one document matching the filter",
the first one in collection order, with its position. -/
def ReferenceStore.firstMatch (filter : BsonM) : List BsonM → Option (Nat × BsonM)
  | [] => none
  | d :: rest =>
    if ReferenceStore.matchesFilter filter d then some (0, d)
    else (ReferenceStore.firstMatch filter rest).map (fun r => (r.1 + 1, r.2))

/-- Modelled from the spec: the operand of one update operator of the external store's patch
language: the embedded document under the operator's key, empty when the operator is absent. -/
def ReferenceStore.operand (update : BsonM) (op : String) : Except MongoErr BsonM :=
  match update.index op with
  | none => .ok []
  | some (.doc fields) => .ok fields
  | some _ => .error (.other "modifiers operate on fields")

/-- Modelled from the spec: the "field-assignment operations" of the external store ($set):
every field of the operand is bound to the operand's value. -/
def ReferenceStore.applySet (fields d : BsonM) : BsonM :=
  fields.foldr (fun e acc => acc.assign e.1 e.2) d

/-- Modelled from the spec: the "atomic increment" of the external store ($inc): an integer
field grows by the operand, an absent field starts from the operand, and a field or an operand
that is not an integer fails the request. -/
def ReferenceStore.applyInc : BsonM → BsonM → Except MongoErr BsonM
  | [], d => .ok d
  | (k, .int n) :: rest, d =>
    match ReferenceStore.applyInc rest d with
    | .error e => .error e
    | .ok acc =>
      match acc.index k with
      | none => .ok (acc.assign k (.int n))
      | some (.int m) => .ok (acc.assign k (.int (m + n)))
      | some _ => .error (.other "cannot apply $inc to a value of non-numeric type")
  | _ :: _, _ => .error (.other "cannot increment with non-numeric argument")

/-- Modelled from the spec: "apply the augmented patch" in the external store.  The patch language
has the two operators the specification names, field assignment ($set) and atomic increment
($inc).  A patch with any other top-level key, or one that assigns and increments the same
field, is a malformed request and fails. -/
def ReferenceStore.applyUpdate (update d : BsonM) : Except MongoErr BsonM :=
  if update.any (fun e => decide (e.1 ≠ "$set" ∧ e.1 ≠ "$inc")) then
    .error (.other "unknown modifier")
  else
    match ReferenceStore.operand update "$set", ReferenceStore.operand update "$inc" with
    | .ok sets, .ok incs =>
      if sets.any (fun e => (incs.index e.1).isSome) then
        .error (.other "updating the path would create a conflict")
      else ReferenceStore.applyInc incs (ReferenceStore.applySet sets d)
    | .error e, _ => .error e
    | _, .error e => .error e

/-- Modelled from the spec: the `FindOneAndUpdate` of the external store (section 4.2 step 3 and
section 6) on a collection held in memory.  No match: the sentinel, nothing changes.  A match
and a patch that fails: that failure, nothing changes.  Otherwise the matched document is
replaced by its post-image, and the reply carries the post-image when the options ask for the
document after the mutation and the pre-image otherwise.  The store is reliable: it never fails
for a reason of transport or deadline, and it ignores the context. -/
def ReferenceStore.FindOneAndUpdate (_ctx : Context) (filter update : BsonM)
    (opts : FindOneAndUpdateOptions) (docs : List BsonM) : SingleResult × List BsonM :=
  match ReferenceStore.firstMatch filter docs with
  | none => (⟨some .ErrNoDocuments, none⟩, docs)
  | some (i, d) =>
    match ReferenceStore.applyUpdate update d with
    | .error e => (⟨some e, none⟩, docs)
    | .ok post =>
      (⟨none, some (if opts.ReturnDocument = some .After then post else d)⟩, docs.set i post)

/-- Modelled from the spec: the external store as a `Collection` over the list of its
documents. -/
def ReferenceStore.collection : Collection (List BsonM) :=
  ⟨ReferenceStore.FindOneAndUpdate⟩

/-! ## Vocabulary of the statements -/

/-- The identity part of a caller's filter holds of a document: every constraint of the filter on
a key other than "version" is met. -/
def matchesIdentity (filter d : BsonM) : Bool :=
  filter.all (fun e => decide (e.1 = "version" ∨ d.index e.1 = filter.index e.1))

/-- The fields a caller's patch sets: the operand of its field-assignment operator. -/
def assignments (update : BsonM) : BsonM :=
  match update.index "$set" with
  | some (.doc fields) => fields
  | _ => []

/-- The stored version of the document at position `i` of a collection. -/
def versionAt (docs : List BsonM) (i : Nat) : Option Value :=
  docs[i]?.bind (fun d => d.index "version")

/-- The field `k` of the document a call returned. -/
def returnedField {σ : Type} (o : Outcome σ) (k : String) : Option Value :=
  (o.result.bind (fun r => r.rdr)).bind (fun d => d.index k)

/-- The version field of the document a call returned. -/
def returnedVersion {σ : Type} (o : Outcome σ) : Option Value :=
  returnedField o "version"

/-- One call of `UpdateIfCurrent` in a sequence of calls. -/
structure Request where
  ctx : Context
  filter : BsonM
  update : BsonM
  version : Int

/-- The versions returned, in order, by those calls of a sequence on the reference store (each
call running on the collection the previous one left) that succeeded and wrote the document at
position `i`. -/
def returnedVersionsAt (i : Nat) : List Request → List BsonM → List (Option Value)
  | [], _ => []
  | r :: rest, docs =>
    let o := UpdateIfCurrent r.ctx ReferenceStore.collection r.filter r.update r.version docs
    if o.err = none ∧ o.store[i]? ≠ docs[i]? then
      returnedVersion o :: returnedVersionsAt i rest o.store
    else returnedVersionsAt i rest o.store

/-- The collection after a sequence of calls on the reference store. -/
def storeAfter : List Request → List BsonM → List BsonM
  | [], docs => docs
  | r :: rest, docs =>
    storeAfter rest
      (UpdateIfCurrent r.ctx ReferenceStore.collection r.filter r.update r.version docs).store

/-- Two consecutive versions: an integer and its successor. -/
def NextVersion (a b : Option Value) : Prop :=
  ∃ n : Int, a = some (.int n) ∧ b = some (.int (n + 1))

/-- The caller's memory after the writes of lines 27 and 28 through two allocated
references. -/
def afterWrites (heap : Heap) (a b : Nat) (version : Int) : Heap :=
  (heap.write a ((heap a).assign "version" (.int version))).write b
    (((heap.write a ((heap a).assign "version" (.int version))) b).assign "$inc"
      (.doc [("version", .int 1)]))

/-- The requests the store received during one call on the caller's memory, with its replies. -/
def callsSent {σ : Type} (ctx : Context) (c : Collection σ) (filter update : MapRef)
    (version : Int) (heap : Heap) (st : σ) : List CallRecord :=
  (UpdateIfCurrent.call ctx c.recording filter update version heap (st, [])).store.2

/-- The reference store accepts a patch for a document: applying it does not fail. -/
def ReferenceStore.accepts (update d : BsonM) : Bool :=
  match ReferenceStore.applyUpdate update d with
  | .ok _ => true
  | .error _ => false

/-- The outcomes of racing calls in the order in which the reference store serves their
requests: each request runs, in one indivisible step, on the collection the one before it
left. -/
def serve : List Request → List BsonM → List (Outcome (List BsonM))
  | [], _ => []
  | r :: rest, docs =>
    let o := UpdateIfCurrent r.ctx ReferenceStore.collection r.filter r.update r.version docs
    o :: serve rest o.store

/-- The requests the store received during one call of `UpdateIfCurrent`, with its replies. -/
def storeCalls {σ : Type} (ctx : Context) (c : Collection σ) (filter update : BsonM)
    (version : Int) (st : σ) : List CallRecord :=
  (UpdateIfCurrent ctx c.recording filter update version (st, [])).store.2

/-! ## Example data -/

/-- A stored document with identity 1 at version 5. -/
def Example.doc5 : BsonM :=
  [("_id", .int 1), ("version", .int 5), ("name", .str "old"), ("views", .int 10)]

/-- The same document at version 6. -/
def Example.doc6 : BsonM :=
  [("_id", .int 1), ("version", .int 6), ("name", .str "old"), ("views", .int 10)]

/-- The identity filter selecting the example document. -/
def Example.byId : BsonM :=
  [("_id", .int 1)]

/-- A patch setting the field name to "x". -/
def Example.setName : BsonM :=
  [("$set", .doc [("name", .str "x")])]

/-- A patch assigning the version field itself. -/
def Example.setVersion : BsonM :=
  [("$set", .doc [("version", .int 9)])]

/-- A patch setting name to "x" and incrementing the counter views by one. -/
def Example.setNameIncViews : BsonM :=
  [("$set", .doc [("name", .str "x")]), ("$inc", .doc [("views", .int 1)])]

/-- Three calls in a row on the example document: expecting 5, expecting 5 again (stale by
then), expecting 6. -/
def Example.threeCalls : List Request :=
  [⟨⟨0⟩, Example.byId, Example.setName, 5⟩, ⟨⟨1⟩, Example.byId, Example.setName, 5⟩,
   ⟨⟨2⟩, Example.byId, Example.setName, 6⟩]

/-- A caller's memory with the identity filter at address 0 and the name patch elsewhere. -/
def Example.memory : Heap :=
  fun n => if n = 0 then Example.byId else Example.setName

/-- Three callers racing on the example document, all expecting version 5. -/
def Example.race : List Request :=
  [⟨⟨0⟩, Example.byId, Example.setName, 5⟩, ⟨⟨1⟩, Example.byId, Example.setName, 5⟩,
   ⟨⟨2⟩, Example.byId, Example.setName, 5⟩]

/-- Two callers racing on the example document, the first with a patch assigning version. -/
def Example.raceRejected : List Request :=
  [⟨⟨0⟩, Example.byId, Example.setVersion, 5⟩, ⟨⟨1⟩, Example.byId, Example.setName, 5⟩]

/-! ## Lemmas on maps -/

theorem BsonM.index_filter_ne (m : BsonM) {k k2 : String} (h : k2 ≠ k) :
    BsonM.index (m.filter (fun e => decide (e.1 ≠ k))) k2 = BsonM.index m k2 := by
  induction m with
  | nil => rfl
  | cons e rest ih =>
    obtain ⟨k3, x⟩ := e
    simp only [ne_eq, decide_not] at ih
    by_cases h3 : k3 = k
    · subst h3
      simp [List.filter, BsonM.index, ih, Ne.symm h]
    · simp [List.filter, h3, BsonM.index, ih]

theorem BsonM.index_assign_self (m : BsonM) (k : String) (v : Value) :
    (m.assign k v).index k = some v := by
  simp [BsonM.assign, BsonM.index]

theorem BsonM.index_assign_ne (m : BsonM) {k k2 : String} (v : Value) (h : k2 ≠ k) :
    (m.assign k v).index k2 = m.index k2 := by
  simp only [BsonM.assign, BsonM.index, Ne.symm h, if_false]
  exact BsonM.index_filter_ne m h

/-! ## What the call sends to the store, for every store -/

theorem storeCalls_eq {σ : Type} (ctx : Context) (c : Collection σ) (filter update : BsonM)
    (version : Int) (st : σ) :
    storeCalls ctx c filter update version st =
      [⟨ctx, filter.assign "version" (.int version),
        update.assign "$inc" (.doc [("version", .int 1)]),
        FindOneAndUpdateOptions.FindOneAndUpdate.SetReturnDocument .After,
        (c.FindOneAndUpdate ctx (filter.assign "version" (.int version))
          (update.assign "$inc" (.doc [("version", .int 1)]))
          (FindOneAndUpdateOptions.FindOneAndUpdate.SetReturnDocument .After) st).1⟩] := by
  simp only [storeCalls, UpdateIfCurrent, Collection.recording]
  split
  · split <;> rfl
  · rfl

theorem UpdateIfCurrent_classify {σ : Type} (ctx : Context) (c : Collection σ)
    (filter update : BsonM) (version : Int) (st : σ) (reply : SingleResult)
    (h : (c.FindOneAndUpdate ctx (filter.assign "version" (.int version))
          (update.assign "$inc" (.doc [("version", .int 1)]))
          (FindOneAndUpdateOptions.FindOneAndUpdate.SetReturnDocument .After) st).1 = reply) :
    (reply.Err = none →
      (UpdateIfCurrent ctx c filter update version st).result = some reply ∧
      (UpdateIfCurrent ctx c filter update version st).err = none) ∧
    (reply.Err = some .ErrNoDocuments →
      (UpdateIfCurrent ctx c filter update version st).result = none ∧
      (UpdateIfCurrent ctx c filter update version st).err = some .ErrVersionConflict) ∧
    (∀ e, reply.Err = some e → e ≠ .ErrNoDocuments →
      (UpdateIfCurrent ctx c filter update version st).result = none ∧
      (UpdateIfCurrent ctx c filter update version st).err = some (.driver e)) := by
  subst h
  simp only [UpdateIfCurrent]
  refine ⟨?_, ?_, ?_⟩
  · intro h0
    simp [h0]
  · intro h0
    simp [h0]
  · intro e h0 hne
    simp [h0, hne]

/-! ## Lemmas on the call on the caller's memory -/

theorem Heap.write_same (heap : Heap) (a : Nat) (m : BsonM) : (heap.write a m) a = m := by
  simp [Heap.write]

theorem Heap.write_other (heap : Heap) (a : Nat) (m : BsonM) {n : Nat} (h : n ≠ a) :
    (heap.write a m) n = heap n := by
  simp [Heap.write, h]

theorem afterWrites_filter_version (heap : Heap) (a b : Nat) (v : Int) :
    (afterWrites heap a b v a).index "version" = some (.int v) := by
  unfold afterWrites
  by_cases h : a = b
  · subst h
    rw [Heap.write_same, Heap.write_same,
      BsonM.index_assign_ne _ _ (by decide : ("version" : String) ≠ "$inc")]
    exact BsonM.index_assign_self _ _ _
  · rw [Heap.write_other _ _ _ h, Heap.write_same]
    exact BsonM.index_assign_self _ _ _

theorem afterWrites_update_inc (heap : Heap) (a b : Nat) (v : Int) :
    (afterWrites heap a b v b).index "$inc" = some (.doc [("version", .int 1)]) := by
  unfold afterWrites
  rw [Heap.write_same]
  exact BsonM.index_assign_self _ _ _

theorem afterWrites_filter_frame (heap : Heap) (a b : Nat) (v : Int) (k : String)
    (hk : k ≠ "version") (hinc : a = b → k ≠ "$inc") :
    (afterWrites heap a b v a).index k = (heap a).index k := by
  unfold afterWrites
  by_cases h : a = b
  · subst h
    rw [Heap.write_same, Heap.write_same, BsonM.index_assign_ne _ _ (hinc rfl),
      BsonM.index_assign_ne _ _ hk]
  · rw [Heap.write_other _ _ _ h, Heap.write_same, BsonM.index_assign_ne _ _ hk]

theorem afterWrites_update_frame (heap : Heap) (a b : Nat) (v : Int) (k : String)
    (hk : k ≠ "$inc") (hver : a = b → k ≠ "version") :
    (afterWrites heap a b v b).index k = (heap b).index k := by
  unfold afterWrites
  rw [Heap.write_same, BsonM.index_assign_ne _ _ hk]
  by_cases h : a = b
  · subst h
    rw [Heap.write_same, BsonM.index_assign_ne _ _ (hver rfl)]
  · rw [Heap.write_other _ _ _ (Ne.symm h)]

theorem afterWrites_elsewhere (heap : Heap) (a b : Nat) (v : Int) (n : Nat) (ha : n ≠ a)
    (hb : n ≠ b) : afterWrites heap a b v n = heap n := by
  unfold afterWrites
  rw [Heap.write_other _ _ _ hb, Heap.write_other _ _ _ ha]

theorem UpdateIfCurrent.call_heap {σ : Type} (ctx : Context) (c : Collection σ) (a b : Nat)
    (v : Int) (heap : Heap) (st : σ) :
    (UpdateIfCurrent.call ctx c (some a) (some b) v heap st).isPanic = false ∧
    (UpdateIfCurrent.call ctx c (some a) (some b) v heap st).heap = afterWrites heap a b v := by
  simp only [UpdateIfCurrent.call, afterWrites]
  split
  · split <;> exact ⟨rfl, rfl⟩
  · exact ⟨rfl, rfl⟩

theorem callsSent_eq {σ : Type} (ctx : Context) (c : Collection σ) (a b : Nat) (v : Int)
    (heap : Heap) (st : σ) :
    callsSent ctx c (some a) (some b) v heap st =
      [⟨ctx, afterWrites heap a b v a, afterWrites heap a b v b,
        FindOneAndUpdateOptions.FindOneAndUpdate.SetReturnDocument .After,
        (c.FindOneAndUpdate ctx (afterWrites heap a b v a) (afterWrites heap a b v b)
          (FindOneAndUpdateOptions.FindOneAndUpdate.SetReturnDocument .After) st).1⟩] := by
  simp only [callsSent, UpdateIfCurrent.call, Collection.recording, afterWrites]
  split
  · split <;> rfl
  · rfl

/-- On two allocated maps that are distinct objects, the call on the caller's memory returns
what `UpdateIfCurrent` computes from the contents of the two maps, and leaves in the two maps
the contents `UpdateIfCurrent` hands back. -/
theorem UpdateIfCurrent.call_eq {σ : Type} (ctx : Context) (c : Collection σ) (a b : Nat)
    (hab : a ≠ b) (v : Int) (heap : Heap) (st : σ) :
    UpdateIfCurrent.call ctx c (some a) (some b) v heap st =
      .returned (UpdateIfCurrent ctx c (heap a) (heap b) v st).result
        (UpdateIfCurrent ctx c (heap a) (heap b) v st).err
        ((heap.write a (UpdateIfCurrent ctx c (heap a) (heap b) v st).filter).write b
          (UpdateIfCurrent ctx c (heap a) (heap b) v st).update)
        (UpdateIfCurrent ctx c (heap a) (heap b) v st).store := by
  have h1 : (heap.write a ((heap a).assign "version" (.int v))) b = heap b :=
    Heap.write_other _ _ _ (Ne.symm hab)
  have h2 : ((heap.write a ((heap a).assign "version" (.int v))).write b
      ((heap b).assign "$inc" (.doc [("version", .int 1)]))) a =
      (heap a).assign "version" (.int v) := by
    rw [Heap.write_other _ _ _ hab, Heap.write_same]
  have h3 : ((heap.write a ((heap a).assign "version" (.int v))).write b
      ((heap b).assign "$inc" (.doc [("version", .int 1)]))) b =
      (heap b).assign "$inc" (.doc [("version", .int 1)]) := Heap.write_same _ _ _
  simp only [UpdateIfCurrent.call, UpdateIfCurrent, h1, h2, h3]
  split
  · split <;> rfl
  · rfl

/-! ## Lemmas on the reference store -/

theorem BsonM.index_eq_none_iff (m : BsonM) (k : String) :
    BsonM.index m k = none ↔ ∀ e ∈ m, e.1 ≠ k := by
  induction m with
  | nil => simp [BsonM.index]
  | cons e rest ih =>
    obtain ⟨k2, x⟩ := e
    by_cases h : k2 = k
    · simp [BsonM.index, h]
    · simp [BsonM.index, h, ih]

theorem ReferenceStore.firstMatch_none (filter : BsonM) (docs : List BsonM) :
    ReferenceStore.firstMatch filter docs = none ↔
      ∀ d ∈ docs, ReferenceStore.matchesFilter filter d = false := by
  induction docs with
  | nil => simp [ReferenceStore.firstMatch]
  | cons d rest ih =>
    by_cases h : ReferenceStore.matchesFilter filter d = true
    · simp [ReferenceStore.firstMatch, h]
    · simp [ReferenceStore.firstMatch, h, ih]

theorem ReferenceStore.firstMatch_some (filter : BsonM) (docs : List BsonM) (i : Nat)
    (d : BsonM) (h : ReferenceStore.firstMatch filter docs = some (i, d)) :
    docs[i]? = some d ∧ ReferenceStore.matchesFilter filter d = true := by
  induction docs generalizing i with
  | nil => simp [ReferenceStore.firstMatch] at h
  | cons d2 rest ih =>
    by_cases hm : ReferenceStore.matchesFilter filter d2 = true
    · simp only [ReferenceStore.firstMatch, hm, if_true, Option.some.injEq, Prod.mk.injEq] at h
      obtain ⟨h1, h2⟩ := h
      subst h1
      subst h2
      exact ⟨by simp, hm⟩
    · simp only [ReferenceStore.firstMatch, hm, Bool.false_eq_true, if_false] at h
      cases hr : ReferenceStore.firstMatch filter rest with
      | none => simp [hr] at h
      | some r =>
        obtain ⟨j, d3⟩ := r
        simp only [hr, Option.map_some', Option.some.injEq, Prod.mk.injEq] at h
        obtain ⟨h1, h2⟩ := h
        have := ih j (by rw [hr, h2])
        subst h1
        simpa using this

theorem ReferenceStore.matchesFilter_assign_version (f d : BsonM) (v : Int) :
    ReferenceStore.matchesFilter (f.assign "version" (.int v)) d = true ↔
      d.index "version" = some (.int v) ∧ matchesIdentity f d = true := by
  have hself := BsonM.index_assign_self f "version" (.int v)
  simp only [ReferenceStore.matchesFilter, matchesIdentity, List.all_eq_true, decide_eq_true_eq]
  constructor
  · intro h
    refine ⟨?_, ?_⟩
    · have := h ("version", .int v) (by simp [BsonM.assign])
      simpa [hself] using this
    · intro e he
      by_cases hk : e.1 = "version"
      · exact Or.inl hk
      · right
        have := h e (by simp [BsonM.assign, he, hk])
        rw [BsonM.index_assign_ne f _ hk] at this
        exact this
  · rintro ⟨hv, hid⟩ e he
    by_cases hk : e.1 = "version"
    · rw [hk, hself]
      exact hv
    · rw [BsonM.index_assign_ne f _ hk]
      have hmem : e ∈ f := by
        simp only [BsonM.assign, List.mem_cons, List.mem_filter] at he
        rcases he with he | he
        · exact absurd (by rw [he]) hk
        · exact he.1
      rcases hid e hmem with h1 | h1
      · exact absurd h1 hk
      · exact h1

theorem ReferenceStore.applySet_index (fields d : BsonM) (k : String) :
    (ReferenceStore.applySet fields d).index k =
      match BsonM.index fields k with
      | some x => some x
      | none => d.index k := by
  induction fields with
  | nil => rfl
  | cons e rest ih =>
    obtain ⟨k2, x⟩ := e
    have hstep : ReferenceStore.applySet ((k2, x) :: rest) d =
        (ReferenceStore.applySet rest d).assign k2 x := rfl
    rw [hstep]
    by_cases h : k2 = k
    · subst h
      rw [BsonM.index_assign_self]
      simp [BsonM.index]
    · rw [BsonM.index_assign_ne _ _ (Ne.symm h), ih]
      simp [BsonM.index, h]

theorem ReferenceStore.operand_inc_assign (p : BsonM) (fields : List (String × Value)) :
    ReferenceStore.operand (p.assign "$inc" (.doc fields)) "$inc" = .ok fields := by
  simp [ReferenceStore.operand, BsonM.index_assign_self]

theorem ReferenceStore.operand_set_assign (p : BsonM) (x : Value) :
    ReferenceStore.operand (p.assign "$inc" x) "$set" = ReferenceStore.operand p "$set" := by
  have h : ("$set" : String) ≠ "$inc" := by decide
  simp [ReferenceStore.operand, BsonM.index_assign_ne p x h]

theorem ReferenceStore.operand_set_ok (p sets : BsonM)
    (h : ReferenceStore.operand p "$set" = .ok sets) : assignments p = sets := by
  unfold ReferenceStore.operand at h
  unfold assignments
  split at h
  · next h0 => rw [h0]; simpa using h
  · next fields h0 => rw [h0]; simpa using h
  · cases h

theorem ReferenceStore.applyInc_version (d : BsonM) :
    ReferenceStore.applyInc [("version", .int 1)] d =
      match d.index "version" with
      | none => .ok (d.assign "version" (.int 1))
      | some (.int m) => .ok (d.assign "version" (.int (m + 1)))
      | some _ => .error (.other "cannot apply $inc to a value of non-numeric type") := by
  simp only [ReferenceStore.applyInc]

theorem ReferenceStore.no_conflict_iff (sets : BsonM) (x : Value) :
    sets.any (fun e => (BsonM.index [("version", x)] e.1).isSome) = false ↔
      BsonM.index sets "version" = none := by
  rw [BsonM.index_eq_none_iff]
  simp only [List.any_eq_false, BsonM.index]
  constructor
  · intro h e he hk
    apply h e he
    simp [hk]
  · intro h e he
    have := h e he
    simp [Ne.symm this]

theorem ReferenceStore.applyUpdate_ok_inv (p d post : BsonM) (w : Int)
    (h : ReferenceStore.applyUpdate (p.assign "$inc" (.doc [("version", .int 1)])) d = .ok post)
    (hv : d.index "version" = some (.int w)) :
    BsonM.index (assignments p) "version" = none ∧
      post = (ReferenceStore.applySet (assignments p) d).assign "version" (.int (w + 1)) := by
  unfold ReferenceStore.applyUpdate at h
  rw [ReferenceStore.operand_inc_assign, ReferenceStore.operand_set_assign] at h
  split at h
  · cases h
  · cases hs : ReferenceStore.operand p "$set" with
    | error e => simp [hs] at h
    | ok sets =>
      have ha := ReferenceStore.operand_set_ok p sets hs
      simp only [hs] at h
      split at h
      · cases h
      · next hc =>
        have hnone : BsonM.index sets "version" = none :=
          (ReferenceStore.no_conflict_iff sets (.int 1)).1 (by simpa using hc)
        have hidx : (ReferenceStore.applySet sets d).index "version" = some (.int w) := by
          rw [ReferenceStore.applySet_index, hnone]
          exact hv
        rw [ReferenceStore.applyInc_version, hidx] at h
        simp only [Except.ok.injEq] at h
        rw [ha]
        exact ⟨hnone, h.symm⟩

theorem ReferenceStore.call_no_match (ctx : Context) (f p : BsonM) (v : Int) (docs : List BsonM)
    (h : ReferenceStore.firstMatch (f.assign "version" (.int v)) docs = none) :
    (UpdateIfCurrent ctx ReferenceStore.collection f p v docs).result = none ∧
    (UpdateIfCurrent ctx ReferenceStore.collection f p v docs).err = some .ErrVersionConflict ∧
    (UpdateIfCurrent ctx ReferenceStore.collection f p v docs).store = docs := by
  simp [UpdateIfCurrent, ReferenceStore.collection, ReferenceStore.FindOneAndUpdate, h,
    SingleResult.Err]

theorem ReferenceStore.call_patch_fails (ctx : Context) (f p : BsonM) (v : Int)
    (docs : List BsonM) (i : Nat) (d : BsonM) (e : MongoErr)
    (h : ReferenceStore.firstMatch (f.assign "version" (.int v)) docs = some (i, d))
    (hu : ReferenceStore.applyUpdate (p.assign "$inc" (.doc [("version", .int 1)])) d =
      .error e) :
    (UpdateIfCurrent ctx ReferenceStore.collection f p v docs).result = none ∧
    (UpdateIfCurrent ctx ReferenceStore.collection f p v docs).err ≠ none ∧
    (UpdateIfCurrent ctx ReferenceStore.collection f p v docs).store = docs := by
  by_cases he : e = .ErrNoDocuments <;>
    simp [UpdateIfCurrent, ReferenceStore.collection, ReferenceStore.FindOneAndUpdate, h, hu,
      SingleResult.Err, he]

theorem ReferenceStore.call_applied (ctx : Context) (f p : BsonM) (v : Int)
    (docs : List BsonM) (i : Nat) (d post : BsonM)
    (h : ReferenceStore.firstMatch (f.assign "version" (.int v)) docs = some (i, d))
    (hu : ReferenceStore.applyUpdate (p.assign "$inc" (.doc [("version", .int 1)])) d =
      .ok post) :
    (UpdateIfCurrent ctx ReferenceStore.collection f p v docs).result =
      some ⟨none, some post⟩ ∧
    (UpdateIfCurrent ctx ReferenceStore.collection f p v docs).err = none ∧
    (UpdateIfCurrent ctx ReferenceStore.collection f p v docs).store = docs.set i post := by
  simp [UpdateIfCurrent, ReferenceStore.collection, ReferenceStore.FindOneAndUpdate, h, hu,
    SingleResult.Err, FindOneAndUpdateOptions.FindOneAndUpdate,
    FindOneAndUpdateOptions.SetReturnDocument]

theorem ReferenceStore.call_at (ctx : Context) (f p : BsonM) (v : Int) (docs : List BsonM)
    (i : Nat) :
    (UpdateIfCurrent ctx ReferenceStore.collection f p v docs).store[i]? = docs[i]? ∨
    ((UpdateIfCurrent ctx ReferenceStore.collection f p v docs).err = none ∧
      NextVersion (versionAt docs i)
        (versionAt (UpdateIfCurrent ctx ReferenceStore.collection f p v docs).store i) ∧
      returnedVersion (UpdateIfCurrent ctx ReferenceStore.collection f p v docs) =
        versionAt (UpdateIfCurrent ctx ReferenceStore.collection f p v docs).store i) := by
  cases hfm : ReferenceStore.firstMatch (f.assign "version" (.int v)) docs with
  | none =>
    left
    rw [(ReferenceStore.call_no_match ctx f p v docs hfm).2.2]
  | some r =>
    obtain ⟨j, d⟩ := r
    cases hu : ReferenceStore.applyUpdate (p.assign "$inc" (.doc [("version", .int 1)])) d with
    | error e =>
      left
      rw [(ReferenceStore.call_patch_fails ctx f p v docs j d e hfm hu).2.2]
    | ok post =>
      obtain ⟨h1, h2, h3⟩ := ReferenceStore.call_applied ctx f p v docs j d post hfm hu
      obtain ⟨hget, hm⟩ := ReferenceStore.firstMatch_some _ docs j d hfm
      obtain ⟨hv, _⟩ := (ReferenceStore.matchesFilter_assign_version f d v).1 hm
      obtain ⟨_, hpost⟩ := ReferenceStore.applyUpdate_ok_inv p d post v hu hv
      by_cases hji : j = i
      · right
        subst hji
        have hlt : j < docs.length := by
          by_contra hge
          rw [List.getElem?_eq_none (Nat.le_of_not_lt hge)] at hget
          cases hget
        have hnew : (docs.set j post)[j]? = some post := by
          simp [hlt]
        have hpv : post.index "version" = some (.int (v + 1)) := by
          rw [hpost]
          exact BsonM.index_assign_self _ _ _
        refine ⟨h2, ⟨v, ?_, ?_⟩, ?_⟩
        · simp [versionAt, hget, hv]
        · simp [versionAt, h3, hnew, hpv]
        · simp [returnedVersion, returnedField, h1, versionAt, h3, hnew]
      · left
        rw [h3, List.getElem?_set_ne hji]

theorem NextVersion_ne (a b : Option Value) (h : NextVersion a b) : a ≠ b := by
  obtain ⟨n, ha, hb⟩ := h
  rw [ha, hb]
  intro h2
  simp only [Option.some.injEq, Value.int.injEq] at h2
  omega

theorem ReferenceStore.accepts_ok (u d : BsonM) (h : ReferenceStore.accepts u d = true) :
    ∃ post, ReferenceStore.applyUpdate u d = .ok post := by
  unfold ReferenceStore.accepts at h
  split at h
  · next post hp => exact ⟨post, hp⟩
  · cases h

theorem ReferenceStore.call_succeeds (ctx : Context) (docs : List BsonM) (f p : BsonM) (v : Int)
    (hdoc : ∃ d ∈ docs, matchesIdentity f d = true ∧ d.index "version" = some (.int v))
    (hacc : ∀ d ∈ docs, matchesIdentity f d = true → d.index "version" = some (.int v) →
      ReferenceStore.accepts (p.assign "$inc" (.doc [("version", .int 1)])) d = true) :
    ∃ (i : Nat) (d post : BsonM),
      docs[i]? = some d ∧ matchesIdentity f d = true ∧ d.index "version" = some (.int v) ∧
      (UpdateIfCurrent ctx ReferenceStore.collection f p v docs).err = none ∧
      (UpdateIfCurrent ctx ReferenceStore.collection f p v docs).result =
        some ⟨none, some post⟩ ∧
      (UpdateIfCurrent ctx ReferenceStore.collection f p v docs).store = docs.set i post ∧
      post.index "version" = some (.int (v + 1)) ∧
      (∀ (k : String) (x : Value), BsonM.index (assignments p) k = some x →
        post.index k = some x) := by
  obtain ⟨d0, hmem, hid0, hv0⟩ := hdoc
  cases hfm : ReferenceStore.firstMatch (f.assign "version" (.int v)) docs with
  | none =>
    have := (ReferenceStore.firstMatch_none _ docs).1 hfm d0 hmem
    have hm := (ReferenceStore.matchesFilter_assign_version f d0 v).2 ⟨hv0, hid0⟩
    rw [hm] at this
    cases this
  | some r =>
    obtain ⟨i, d⟩ := r
    obtain ⟨hget, hm⟩ := ReferenceStore.firstMatch_some _ docs i d hfm
    obtain ⟨hv, hid⟩ := (ReferenceStore.matchesFilter_assign_version f d v).1 hm
    have hd : d ∈ docs := List.mem_iff_getElem?.2 ⟨i, hget⟩
    obtain ⟨post, hu⟩ := ReferenceStore.accepts_ok _ _ (hacc d hd hid hv)
    obtain ⟨h1, h2, h3⟩ := ReferenceStore.call_applied ctx f p v docs i d post hfm hu
    obtain ⟨hnone, hpost⟩ := ReferenceStore.applyUpdate_ok_inv p d post v hu hv
    refine ⟨i, d, post, hget, hid, hv, h2, h1, h3, ?_, ?_⟩
    · rw [hpost]
      exact BsonM.index_assign_self _ _ _
    · intro k x hk
      have hne : k ≠ "version" := by
        intro h
        rw [h, hnone] at hk
        cases hk
      rw [hpost, BsonM.index_assign_ne _ _ hne, ReferenceStore.applySet_index, hk]

theorem serve_stale (f : BsonM) (v : Int) (reqs : List Request) (docs : List BsonM)
    (hsame : ∀ q ∈ reqs, q.filter = f ∧ q.version = v)
    (hstale : ∀ d ∈ docs, matchesIdentity f d = true → d.index "version" ≠ some (.int v)) :
    (serve reqs docs).length = reqs.length ∧
      ∀ o ∈ serve reqs docs, o.result = none ∧ o.err = some .ErrVersionConflict := by
  induction reqs with
  | nil => simp [serve]
  | cons q rest ih =>
    obtain ⟨hf, hv⟩ := hsame q (List.mem_cons_self _ _)
    have hfm : ReferenceStore.firstMatch (q.filter.assign "version" (.int q.version)) docs =
        none := by
      rw [hf, hv, ReferenceStore.firstMatch_none]
      intro d hd
      cases hm : ReferenceStore.matchesFilter (f.assign "version" (.int v)) d with
      | false => rfl
      | true =>
        have hh := (ReferenceStore.matchesFilter_assign_version f d v).1 hm
        exact absurd hh.1 (hstale d hd hh.2)
    obtain ⟨h1, h2, h3⟩ := ReferenceStore.call_no_match q.ctx q.filter q.update q.version docs hfm
    have hrest := ih (fun q2 hq2 => hsame q2 (List.mem_cons_of_mem _ hq2))
    simp only [serve, h3, List.length_cons, List.mem_cons]
    refine ⟨by rw [hrest.1], ?_⟩
    intro o ho
    rcases ho with ho | ho
    · rw [ho]
      exact ⟨h1, h2⟩
    · exact hrest.2 o ho

/-! ## The claims settled for every store -/

/-- C5: for every integer version value v, after `SetInitialVersion` the referenced integer is
1 when v is 0 and is v itself when v is not 0, negative and positive values included. -/
theorem SetInitialVersion_spec (v : Int) :
    (v = 0 → SetInitialVersion v = 1) ∧ (v ≠ 0 → SetInitialVersion v = v) := by
  constructor
  · intro h
    simp [SetInitialVersion, h]
  · intro h
    simp [SetInitialVersion, h]

/-- C7, as amended: for every store and every call whose filter and patch are both allocated
maps, the call sends the store exactly one request, and the filter of that request binds
"version" to v and agrees with the caller's filter, as it was before the call, on every other
key, except that when the filter and the patch are one and the same map it also binds "$inc" to
the document version: 1; a "version" entry of the caller's filter is thereby replaced.  When the
filter or the patch is nil, the call panics and sends no request. -/
theorem UpdateIfCurrent_call_filter_sent {σ : Type} (ctx : Context) (c : Collection σ)
    (v : Int) (heap : Heap) (st : σ) :
    (∀ a b : Nat, ∃ call : CallRecord,
      callsSent ctx c (some a) (some b) v heap st = [call] ∧
      call.filter.index "version" = some (.int v) ∧
      (∀ k : String, k ≠ "version" → (a = b → k ≠ "$inc") →
        call.filter.index k = (heap a).index k) ∧
      (a = b → call.filter.index "$inc" = some (.doc [("version", .int 1)]))) ∧
    (∀ r : MapRef,
      (UpdateIfCurrent.call ctx c none r v heap st).isPanic = true ∧
      callsSent ctx c none r v heap st = [] ∧
      (UpdateIfCurrent.call ctx c r none v heap st).isPanic = true ∧
      callsSent ctx c r none v heap st = []) := by
  constructor
  · intro a b
    refine ⟨_, callsSent_eq ctx c a b v heap st, afterWrites_filter_version heap a b v, ?_, ?_⟩
    · intro k hk hinc
      exact afterWrites_filter_frame heap a b v k hk hinc
    · intro hab
      subst hab
      exact afterWrites_update_inc heap a a v
  · intro r
    cases r with
    | none => exact ⟨rfl, rfl, rfl, rfl⟩
    | some a => exact ⟨rfl, rfl, rfl, rfl⟩

/-- C7, counterexample: the map at address 0 has no "$inc" entry; passed as both filter and
patch, it reaches the store as a filter that binds "$inc", a constraint the caller never gave.
And with a nil filter no request reaches the store at all. -/
theorem UpdateIfCurrent_call_filter_sent_counterexample :
    BsonM.index (Example.memory 0) "$inc" = none ∧
    (callsSent ⟨0⟩ ReferenceStore.collection (some 0) (some 0) 5 Example.memory
      [Example.doc5]).map (fun call => call.filter.index "$inc") =
        [some (.doc [("version", .int 1)])] ∧
    (callsSent ⟨0⟩ ReferenceStore.collection none (some 1) 5 Example.memory
      [Example.doc5]).map (fun call => call.filter) = [] := by
  decide

/-- C10, as amended: for every store and every call whose filter and patch are both allocated
maps, whatever the store replies, the call returns, and afterwards the caller's filter map binds
"version" to v, the caller's patch map binds "$inc" to the document version: 1, every other key
of the filter map is bound as before the call (except "$inc" when the filter and the patch are
one and the same map), every other key of the patch map is bound as before (except "version"
when they are one map), and every other map is untouched.  With a nil filter the call panics and
leaves the memory as it was; with an allocated filter and a nil patch it panics after binding
"version" to v in the filter map, every other key and every other map as before. -/
theorem UpdateIfCurrent_call_caller_maps {σ : Type} (ctx : Context) (c : Collection σ)
    (v : Int) (heap : Heap) (st : σ) :
    (∀ a b : Nat,
      (UpdateIfCurrent.call ctx c (some a) (some b) v heap st).isPanic = false ∧
      ((UpdateIfCurrent.call ctx c (some a) (some b) v heap st).heap a).index "version" =
        some (.int v) ∧
      ((UpdateIfCurrent.call ctx c (some a) (some b) v heap st).heap b).index "$inc" =
        some (.doc [("version", .int 1)]) ∧
      (∀ k : String, k ≠ "version" → (a = b → k ≠ "$inc") →
        ((UpdateIfCurrent.call ctx c (some a) (some b) v heap st).heap a).index k =
          (heap a).index k) ∧
      (∀ k : String, k ≠ "$inc" → (a = b → k ≠ "version") →
        ((UpdateIfCurrent.call ctx c (some a) (some b) v heap st).heap b).index k =
          (heap b).index k) ∧
      (∀ n : Nat, n ≠ a → n ≠ b →
        (UpdateIfCurrent.call ctx c (some a) (some b) v heap st).heap n = heap n)) ∧
    (∀ r : MapRef,
      (UpdateIfCurrent.call ctx c none r v heap st).isPanic = true ∧
      (UpdateIfCurrent.call ctx c none r v heap st).heap = heap) ∧
    (∀ a : Nat,
      (UpdateIfCurrent.call ctx c (some a) none v heap st).isPanic = true ∧
      ((UpdateIfCurrent.call ctx c (some a) none v heap st).heap a).index "version" =
        some (.int v) ∧
      (∀ k : String, k ≠ "version" →
        ((UpdateIfCurrent.call ctx c (some a) none v heap st).heap a).index k =
          (heap a).index k) ∧
      (∀ n : Nat, n ≠ a →
        (UpdateIfCurrent.call ctx c (some a) none v heap st).heap n = heap n)) := by
  refine ⟨?_, ?_, ?_⟩
  · intro a b
    obtain ⟨hp, hh⟩ := UpdateIfCurrent.call_heap ctx c a b v heap st
    rw [hh]
    exact ⟨hp, afterWrites_filter_version heap a b v, afterWrites_update_inc heap a b v,
      fun k hk hinc => afterWrites_filter_frame heap a b v k hk hinc,
      fun k hk hver => afterWrites_update_frame heap a b v k hk hver,
      fun n ha hb => afterWrites_elsewhere heap a b v n ha hb⟩
  · intro r
    exact ⟨rfl, rfl⟩
  · intro a
    have hh : (UpdateIfCurrent.call ctx c (some a) none v heap st).heap =
        heap.write a ((heap a).assign "version" (.int v)) := rfl
    rw [hh]
    refine ⟨rfl, ?_, ?_, ?_⟩
    · rw [Heap.write_same]
      exact BsonM.index_assign_self _ _ _
    · intro k hk
      rw [Heap.write_same]
      exact BsonM.index_assign_ne _ _ hk
    · intro n hn
      exact Heap.write_other _ _ _ hn

/-- C10, counterexample: with the map at address 0 passed as both filter and patch, the key
"$inc" of the caller's filter map, unbound before the call, is bound after it; and with that map
as filter and a nil patch the call panics after writing the filter, so that no patch map holds
"$inc". -/
theorem UpdateIfCurrent_call_caller_maps_counterexample :
    BsonM.index (Example.memory 0) "$inc" = none ∧
    ((UpdateIfCurrent.call ⟨0⟩ ReferenceStore.collection (some 0) (some 0) 5 Example.memory
      [Example.doc5]).heap 0).index "$inc" = some (.doc [("version", .int 1)]) ∧
    (UpdateIfCurrent.call ⟨0⟩ ReferenceStore.collection (some 0) none 5 Example.memory
      [Example.doc5]).isPanic = true ∧
    ((UpdateIfCurrent.call ⟨0⟩ ReferenceStore.collection (some 0) none 5 Example.memory
      [Example.doc5]).heap 0).index "version" = some (.int 5) := by
  decide

/-- C4: for every store, the call sends one request, and for every error e of the reply other
than the no-document sentinel the call returns a nil result and e itself, which is not
`ErrVersionConflict`; the call returns `ErrVersionConflict` exactly when the reply holds the
sentinel. -/
theorem UpdateIfCurrent_store_error_passthrough {σ : Type} (ctx : Context) (c : Collection σ)
    (f p : BsonM) (v : Int) (st : σ) :
    ∃ call : CallRecord, storeCalls ctx c f p v st = [call] ∧
      (∀ e : MongoErr, call.reply.Err = some e → e ≠ .ErrNoDocuments →
        (UpdateIfCurrent ctx c f p v st).result = none ∧
        (UpdateIfCurrent ctx c f p v st).err = some (.driver e) ∧
        GoError.driver e ≠ GoError.ErrVersionConflict) ∧
      ((UpdateIfCurrent ctx c f p v st).err = some .ErrVersionConflict ↔
        call.reply.Err = some .ErrNoDocuments) := by
  refine ⟨_, storeCalls_eq ctx c f p v st, ?_, ?_⟩
  · intro e he hne
    have h := (UpdateIfCurrent_classify ctx c f p v st _ rfl).2.2 e he hne
    exact ⟨h.1, h.2, by simp⟩
  · have h := UpdateIfCurrent_classify ctx c f p v st _ rfl
    constructor
    · intro herr
      cases hr : (c.FindOneAndUpdate ctx (f.assign "version" (.int v))
          (p.assign "$inc" (.doc [("version", .int 1)]))
          (FindOneAndUpdateOptions.FindOneAndUpdate.SetReturnDocument .After) st).1.Err with
      | none =>
        have h1 := (h.1 hr).2
        rw [h1] at herr
        cases herr
      | some e =>
        by_cases hne : e = .ErrNoDocuments
        · rw [hne]
        · have h1 := (h.2.2 e hr hne).2
          rw [h1] at herr
          cases herr
    · intro hr
      exact (h.2.1 hr).2

/-! ## The claims settled on the reference store -/

/-- C1, as amended: on the reference store, for every collection holding a document that meets
the identity constraints of the filter and whose stored version is the expected version v, and
for every patch that has no "$inc" entry of its own and that the store accepts, together with
the version increment, for such a document, the call returns a nil error and the post-image of
such a document, which is stored in its place; in the post-image "version" is v + 1 and every
field the patch sets has the patched value.  (What becomes of a caller's own "$inc" entry is
the matter of C8 and is left out here.) -/
theorem UpdateIfCurrent_success (ctx : Context) (docs : List BsonM) (f p : BsonM) (v : Int)
    (hdoc : ∃ d ∈ docs, matchesIdentity f d = true ∧ d.index "version" = some (.int v))
    (_hinc : p.index "$inc" = none)
    (hacc : ∀ d ∈ docs, matchesIdentity f d = true → d.index "version" = some (.int v) →
      ReferenceStore.accepts (p.assign "$inc" (.doc [("version", .int 1)])) d = true) :
    ∃ (i : Nat) (d post : BsonM),
      docs[i]? = some d ∧ matchesIdentity f d = true ∧ d.index "version" = some (.int v) ∧
      (UpdateIfCurrent ctx ReferenceStore.collection f p v docs).err = none ∧
      (UpdateIfCurrent ctx ReferenceStore.collection f p v docs).result =
        some ⟨none, some post⟩ ∧
      (UpdateIfCurrent ctx ReferenceStore.collection f p v docs).store = docs.set i post ∧
      post.index "version" = some (.int (v + 1)) ∧
      (∀ (k : String) (x : Value), BsonM.index (assignments p) k = some x →
        post.index k = some x) :=
  ReferenceStore.call_succeeds ctx docs f p v hdoc hacc

/-- C1, witness: the example document at version 5, expected version 5 and a patch setting name
to "x" give a post-image with version 6 and name "x". -/
theorem UpdateIfCurrent_success_witness :
    ∃ (i : Nat) (d post : BsonM),
      [Example.doc5][i]? = some d ∧ matchesIdentity Example.byId d = true ∧
      d.index "version" = some (.int 5) ∧
      (UpdateIfCurrent ⟨0⟩ ReferenceStore.collection Example.byId Example.setName 5
        [Example.doc5]).err = none ∧
      (UpdateIfCurrent ⟨0⟩ ReferenceStore.collection Example.byId Example.setName 5
        [Example.doc5]).result = some ⟨none, some post⟩ ∧
      (UpdateIfCurrent ⟨0⟩ ReferenceStore.collection Example.byId Example.setName 5
        [Example.doc5]).store = [Example.doc5].set i post ∧
      post.index "version" = some (.int (5 + 1)) ∧
      (∀ (k : String) (x : Value), BsonM.index (assignments Example.setName) k = some x →
        post.index k = some x) :=
  UpdateIfCurrent_success ⟨0⟩ [Example.doc5] Example.byId Example.setName 5
    ⟨Example.doc5, List.mem_singleton.2 rfl, by decide, by decide⟩ (by decide) (by decide)

/-- C1, counterexample: the stored document matches the identity filter and its version is the
expected version 5, yet with a patch that assigns "version" the call returns an error and no
document, and nothing is stored.  (The claim asks of this input a post-image whose version is
both 6 and 9.) -/
theorem UpdateIfCurrent_success_counterexample :
    (Example.doc5 ∈ [Example.doc5] ∧ matchesIdentity Example.byId Example.doc5 = true ∧
      Example.doc5.index "version" = some (.int 5)) ∧
    (UpdateIfCurrent ⟨0⟩ ReferenceStore.collection Example.byId Example.setVersion 5
      [Example.doc5]).err =
        some (.driver (.other "updating the path would create a conflict")) ∧
    (UpdateIfCurrent ⟨0⟩ ReferenceStore.collection Example.byId Example.setVersion 5
      [Example.doc5]).result = none ∧
    (UpdateIfCurrent ⟨0⟩ ReferenceStore.collection Example.byId Example.setVersion 5
      [Example.doc5]).store = [Example.doc5] := by
  decide

/-- C2: for every store, when the reply to the call's request holds the no-document sentinel the
call returns no result and `ErrVersionConflict`; and on the reference store, when no stored
document meets the identity constraints of the filter, this is the outcome for every expected
version (and nothing is stored). -/
theorem UpdateIfCurrent_no_match_conflict :
    (∀ (σ : Type) (ctx : Context) (c : Collection σ) (f p : BsonM) (v : Int) (st : σ),
      (∃ call ∈ storeCalls ctx c f p v st, call.reply.Err = some .ErrNoDocuments) →
        (UpdateIfCurrent ctx c f p v st).result = none ∧
        (UpdateIfCurrent ctx c f p v st).err = some .ErrVersionConflict) ∧
    (∀ (ctx : Context) (docs : List BsonM) (f p : BsonM),
      (∀ d ∈ docs, matchesIdentity f d = false) → ∀ v : Int,
        (UpdateIfCurrent ctx ReferenceStore.collection f p v docs).result = none ∧
        (UpdateIfCurrent ctx ReferenceStore.collection f p v docs).err =
          some .ErrVersionConflict ∧
        (UpdateIfCurrent ctx ReferenceStore.collection f p v docs).store = docs) := by
  constructor
  · intro σ ctx c f p v st h
    rw [storeCalls_eq] at h
    obtain ⟨call, hmem, herr⟩ := h
    rw [List.mem_singleton] at hmem
    subst hmem
    exact (UpdateIfCurrent_classify ctx c f p v st _ rfl).2.1 herr
  · intro ctx docs f p h v
    apply ReferenceStore.call_no_match
    rw [ReferenceStore.firstMatch_none]
    intro d hd
    cases hm : ReferenceStore.matchesFilter (f.assign "version" (.int v)) d with
    | false => rfl
    | true =>
      have := ((ReferenceStore.matchesFilter_assign_version f d v).1 hm).2
      rw [h d hd] at this
      cases this

/-- C2, witness: no stored document has identity 2, and the call for it reports a conflict. -/
theorem UpdateIfCurrent_no_match_conflict_witness :
    (UpdateIfCurrent ⟨0⟩ ReferenceStore.collection [("_id", .int 2)] Example.setName 5
      [Example.doc5]).result = none ∧
    (UpdateIfCurrent ⟨0⟩ ReferenceStore.collection [("_id", .int 2)] Example.setName 5
      [Example.doc5]).err = some .ErrVersionConflict ∧
    (UpdateIfCurrent ⟨0⟩ ReferenceStore.collection [("_id", .int 2)] Example.setName 5
      [Example.doc5]).store = [Example.doc5] :=
  UpdateIfCurrent_no_match_conflict.2 ⟨0⟩ [Example.doc5] [("_id", .int 2)] Example.setName
    (by decide) 5

/-- C3: on the reference store, when no stored document meeting the identity constraints of the
filter has the expected version v as its stored version, the call returns no result and
`ErrVersionConflict`, and the collection afterwards is the collection before: every document
keeps its version and no mutation of the patch is applied. -/
theorem UpdateIfCurrent_stale_conflict (ctx : Context) (docs : List BsonM) (f p : BsonM)
    (v : Int)
    (h : ∀ d ∈ docs, matchesIdentity f d = true → d.index "version" ≠ some (.int v)) :
    (UpdateIfCurrent ctx ReferenceStore.collection f p v docs).result = none ∧
    (UpdateIfCurrent ctx ReferenceStore.collection f p v docs).err = some .ErrVersionConflict ∧
    (UpdateIfCurrent ctx ReferenceStore.collection f p v docs).store = docs := by
  apply ReferenceStore.call_no_match
  rw [ReferenceStore.firstMatch_none]
  intro d hd
  cases hm : ReferenceStore.matchesFilter (f.assign "version" (.int v)) d with
  | false => rfl
  | true =>
    have hh := (ReferenceStore.matchesFilter_assign_version f d v).1 hm
    exact absurd hh.1 (h d hd hh.2)

/-- C3, witness: the example document stored at version 6 and a call expecting version 5. -/
theorem UpdateIfCurrent_stale_conflict_witness :
    (UpdateIfCurrent ⟨0⟩ ReferenceStore.collection Example.byId Example.setName 5
      [Example.doc6]).result = none ∧
    (UpdateIfCurrent ⟨0⟩ ReferenceStore.collection Example.byId Example.setName 5
      [Example.doc6]).err = some .ErrVersionConflict ∧
    (UpdateIfCurrent ⟨0⟩ ReferenceStore.collection Example.byId Example.setName 5
      [Example.doc6]).store = [Example.doc6] :=
  UpdateIfCurrent_stale_conflict ⟨0⟩ [Example.doc6] Example.byId Example.setName 5 (by decide)

/-- C6: on the reference store, for every sequence of calls and every stored document (the one
at position i), the versions returned by the successful calls that wrote this document, taken
in order and started from the version stored at first, go up by exactly 1 at every step, and
the version stored in the end is the last of them; and a single call changes the stored version
of a document only when it succeeds, and then to its successor, which is the version the call
returns. -/
theorem UpdateIfCurrent_versions_monotone (i : Nat) (reqs : List Request) (docs : List BsonM) :
    List.Chain NextVersion (versionAt docs i) (returnedVersionsAt i reqs docs) ∧
    versionAt (storeAfter reqs docs) i =
      (returnedVersionsAt i reqs docs).getLast?.getD (versionAt docs i) ∧
    (∀ (ctx : Context) (f p : BsonM) (v : Int),
      versionAt (UpdateIfCurrent ctx ReferenceStore.collection f p v docs).store i ≠
          versionAt docs i →
        (UpdateIfCurrent ctx ReferenceStore.collection f p v docs).err = none ∧
        NextVersion (versionAt docs i)
          (versionAt (UpdateIfCurrent ctx ReferenceStore.collection f p v docs).store i) ∧
        returnedVersion (UpdateIfCurrent ctx ReferenceStore.collection f p v docs) =
          versionAt (UpdateIfCurrent ctx ReferenceStore.collection f p v docs).store i) := by
  refine ⟨?_, ?_, ?_⟩
  · induction reqs generalizing docs with
    | nil => exact List.Chain.nil
    | cons r rest ih =>
      have hstep := ReferenceStore.call_at r.ctx r.filter r.update r.version docs i
      have hrest := ih
        (UpdateIfCurrent r.ctx ReferenceStore.collection r.filter r.update r.version docs).store
      rcases hstep with hsame | ⟨herr, hnext, hret⟩
      · have hv : versionAt
            (UpdateIfCurrent r.ctx ReferenceStore.collection r.filter r.update r.version
              docs).store i = versionAt docs i := by
          simp only [versionAt, hsame]
        simp only [returnedVersionsAt, hsame, ne_eq, not_true_eq_false, and_false, if_false]
        rw [hv] at hrest
        exact hrest
      · have hne : (UpdateIfCurrent r.ctx ReferenceStore.collection r.filter r.update r.version
            docs).store[i]? ≠ docs[i]? := by
          intro heq
          apply NextVersion_ne _ _ hnext
          simp only [versionAt, heq]
        simp only [returnedVersionsAt, herr, hne, ne_eq, not_false_eq_true, and_self, if_true]
        rw [hret]
        exact List.Chain.cons hnext hrest
  · induction reqs generalizing docs with
    | nil => rfl
    | cons r rest ih =>
      have hstep := ReferenceStore.call_at r.ctx r.filter r.update r.version docs i
      have hrest := ih
        (UpdateIfCurrent r.ctx ReferenceStore.collection r.filter r.update r.version docs).store
      rcases hstep with hsame | ⟨herr, hnext, hret⟩
      · have hv : versionAt
            (UpdateIfCurrent r.ctx ReferenceStore.collection r.filter r.update r.version
              docs).store i = versionAt docs i := by
          simp only [versionAt, hsame]
        simp only [returnedVersionsAt, storeAfter, hsame, ne_eq, not_true_eq_false, and_false,
          if_false]
        rw [hv] at hrest
        exact hrest
      · have hne : (UpdateIfCurrent r.ctx ReferenceStore.collection r.filter r.update r.version
            docs).store[i]? ≠ docs[i]? := by
          intro heq
          apply NextVersion_ne _ _ hnext
          simp only [versionAt, heq]
        simp only [returnedVersionsAt, storeAfter, herr, hne, ne_eq, not_false_eq_true,
          and_self, if_true]
        rw [hrest, hret, List.getLast?_cons]
        rfl
  · intro ctx f p v hchg
    rcases ReferenceStore.call_at ctx f p v docs i with hsame | h
    · exact absurd (by simp only [versionAt, hsame]) hchg
    · exact h

/-- C6, example: three calls on the example document at version 5, expecting 5, 5 and 6, return
the versions 6 and 7 (the second call is stale), and 7 is the version stored in the end. -/
theorem UpdateIfCurrent_versions_monotone_witness :
    returnedVersionsAt 0 Example.threeCalls [Example.doc5] =
      [some (.int 6), some (.int 7)] ∧
    List.Chain NextVersion (some (.int 5)) [some (.int 6), some (.int 7)] ∧
    versionAt (storeAfter Example.threeCalls [Example.doc5]) 0 = some (.int 7) :=
  ⟨by decide, (UpdateIfCurrent_versions_monotone 0 Example.threeCalls [Example.doc5]).1,
    by decide⟩

/-- C8, the failing input: the caller's patch sets name and increments views.  The patch the
store receives has lost the caller's increment: its "$inc" entry is the document version: 1
alone.  The call succeeds, and in the post-image the version went from 5 to 6 and name is "x",
but views is still 10. -/
theorem UpdateIfCurrent_drops_caller_increment :
    Example.setNameIncViews.index "$inc" = some (.doc [("views", .int 1)]) ∧
    (storeCalls ⟨0⟩ ReferenceStore.collection Example.byId Example.setNameIncViews 5
      [Example.doc5]).map (fun call => call.update.index "$inc") =
        [some (.doc [("version", .int 1)])] ∧
    (UpdateIfCurrent ⟨0⟩ ReferenceStore.collection Example.byId Example.setNameIncViews 5
      [Example.doc5]).err = none ∧
    returnedField (UpdateIfCurrent ⟨0⟩ ReferenceStore.collection Example.byId
      Example.setNameIncViews 5 [Example.doc5]) "version" = some (.int 6) ∧
    returnedField (UpdateIfCurrent ⟨0⟩ ReferenceStore.collection Example.byId
      Example.setNameIncViews 5 [Example.doc5]) "name" = some (.str "x") ∧
    returnedField (UpdateIfCurrent ⟨0⟩ ReferenceStore.collection Example.byId
      Example.setNameIncViews 5 [Example.doc5]) "views" = some (.int 10) := by
  decide

/-- C9, as amended: on the reference store, for every N ≥ 1 callers (the request served first
and the N - 1 others, in whichever order the store serves them) that race with the same identity
filter and the same expected version v, each with maps of its own, on a collection in which
exactly one document meets the identity constraints at stored version v: when the store accepts
the patch of the request it serves first, together with the version increment, the caller served
first receives a nil error and a document whose version is v + 1, and each of the N - 1 others
receives no document and `ErrVersionConflict`. -/
theorem UpdateIfCurrent_serialised_race (docs : List BsonM) (f : BsonM) (v : Int)
    (r : Request) (rest : List Request)
    (hsame : ∀ q ∈ r :: rest, q.filter = f ∧ q.version = v)
    (hdoc : ∃ d ∈ docs, matchesIdentity f d = true ∧ d.index "version" = some (.int v))
    (hone : ∀ (i j : Nat) (d d2 : BsonM), docs[i]? = some d → docs[j]? = some d2 →
      matchesIdentity f d = true → d.index "version" = some (.int v) →
      matchesIdentity f d2 = true → d2.index "version" = some (.int v) → i = j)
    (hacc : ∀ d ∈ docs, matchesIdentity f d = true → d.index "version" = some (.int v) →
      ReferenceStore.accepts (r.update.assign "$inc" (.doc [("version", .int 1)])) d = true) :
    ∃ (o : Outcome (List BsonM)) (os : List (Outcome (List BsonM))),
      serve (r :: rest) docs = o :: os ∧ os.length = rest.length ∧
      o.err = none ∧ returnedVersion o = some (.int (v + 1)) ∧
      ∀ o2 ∈ os, o2.result = none ∧ o2.err = some .ErrVersionConflict := by
  obtain ⟨hf, hv⟩ := hsame r (List.mem_cons_self _ _)
  obtain ⟨i, d, post, hget, hid, hver, herr, hres, hstore, hpv, _⟩ :=
    ReferenceStore.call_succeeds r.ctx docs f r.update v hdoc hacc
  have hlt : i < docs.length := by
    by_contra hge
    rw [List.getElem?_eq_none (Nat.le_of_not_lt hge)] at hget
    cases hget
  have hstale : ∀ d2 ∈ docs.set i post, matchesIdentity f d2 = true →
      d2.index "version" ≠ some (.int v) := by
    intro d2 hd2 hid2 hv2
    obtain ⟨j, hj⟩ := List.mem_iff_getElem?.1 hd2
    by_cases hji : j = i
    · subst hji
      have hnew : (docs.set j post)[j]? = some post := by simp [hlt]
      rw [hnew] at hj
      cases hj
      rw [hpv] at hv2
      simp only [Option.some.injEq, Value.int.injEq] at hv2
      omega
    · rw [List.getElem?_set_ne (Ne.symm hji)] at hj
      exact hji (hone j i d2 d hj hget hid2 hv2 hid hver)
  have hrest := serve_stale f v rest (docs.set i post)
    (fun q hq => hsame q (List.mem_cons_of_mem _ hq)) hstale
  refine ⟨UpdateIfCurrent r.ctx ReferenceStore.collection r.filter r.update r.version docs,
    serve rest (UpdateIfCurrent r.ctx ReferenceStore.collection r.filter r.update r.version
      docs).store, rfl, ?_, ?_, ?_, ?_⟩
  · rw [hf, hv, hstore]
    exact hrest.1
  · rw [hf, hv]
    exact herr
  · rw [hf, hv]
    simp [returnedVersion, returnedField, hres, hpv]
  · rw [hf, hv, hstore]
    exact hrest.2

/-- C9, witness: three callers race on the example document at version 5, all expecting 5; the
one served first receives version 6 and the two others `ErrVersionConflict`. -/
theorem UpdateIfCurrent_serialised_race_witness :
    ∃ (o : Outcome (List BsonM)) (os : List (Outcome (List BsonM))),
      serve Example.race [Example.doc5] = o :: os ∧ os.length = 2 ∧
      o.err = none ∧ returnedVersion o = some (.int (5 + 1)) ∧
      ∀ o2 ∈ os, o2.result = none ∧ o2.err = some .ErrVersionConflict :=
  UpdateIfCurrent_serialised_race [Example.doc5] Example.byId 5
    ⟨⟨0⟩, Example.byId, Example.setName, 5⟩
    [⟨⟨1⟩, Example.byId, Example.setName, 5⟩, ⟨⟨2⟩, Example.byId, Example.setName, 5⟩]
    (by decide) ⟨Example.doc5, List.mem_singleton.2 rfl, by decide, by decide⟩
    (by
      intro i j d d2 hi hj _ _ _ _
      cases i with
      | zero =>
        cases j with
        | zero => rfl
        | succ n => simp at hj
      | succ n => simp at hi)
    (by decide)

/-- C9, counterexample: two callers race on the example document at version 5, both expecting 5.
The store rejects the patch served first, which assigns "version", so that caller receives the
store's error; the other caller succeeds.  One caller succeeds, but the other one does not
receive `ErrVersionConflict`. -/
theorem UpdateIfCurrent_serialised_race_counterexample :
    (serve Example.raceRejected [Example.doc5]).map (fun o => o.err) =
      [some (.driver (.other "updating the path would create a conflict")), none] ∧
    (serve Example.raceRejected [Example.doc5]).map (fun o => returnedVersion o) =
      [none, some (.int 6)] := by
  decide

end Versioned
